import Mathlib

/-!
# Verification of the california-water-reservoir-tk data-preparation pipeline

Shallow embedding of `src/dioxus-cdec/build_db.py` and
`src/dioxus-cdec/build_json.py`: archive extraction, CSV-ish parsing,
date normalization, database loading (relational backend) and JSON
serialization (document backend), together with theorems settling the
specification claims about them.

Python strings are modelled as Lean `String`/`List Char`; Python `int`
values as Lean `Int`; an uncaught Python exception as `Except.error`.
-/

/- ## Models of the Python string primitives used by the scripts -/

/-- Python `str.split(sep)` for a one-character separator: always returns at
least one (possibly empty) field; adjacent separators yield empty fields. -/
def pySplitChar (sep : Char) : List Char → List (List Char)
  | [] => [[]]
  | c :: cs =>
    let rest := pySplitChar sep cs
    if c = sep then [] :: rest
    else
      match rest with
      | [] => [[c]]
      | h :: t => (c :: h) :: t

/-- The whitespace characters removed by Python `str.strip()` (ASCII part). -/
def isPyWS (c : Char) : Bool :=
  c = ' ' || c = '\t' || c = '\n' || c = '\x0d' || c = '\x0b' || c = '\x0c'

/-- Python `str.strip()` on a character list. -/
def pyStripList (l : List Char) : List Char :=
  ((l.dropWhile isPyWS).reverse.dropWhile isPyWS).reverse

/-- Python `str.strip()`. -/
def pyStrip (s : String) : String := ⟨pyStripList s.data⟩

/-- Python slice `s[a:b]` for `0 ≤ a ≤ b` (clamps at the string end,
never fails, may return fewer than `b - a` characters). -/
def pySlice (s : String) (a b : Nat) : String := ⟨(s.data.drop a).take (b - a)⟩

/-- Value of a decimal digit character. -/
def digitVal (c : Char) : Nat := c.toNat - 48

/-- Digit-run parser for Python `int()`: consumes the remaining characters of
a literal after its first digit, allowing single underscores between digits. -/
def pyIntAux : Nat → List Char → Option Nat
  | acc, [] => some acc
  | acc, c :: cs =>
    if c.isDigit then pyIntAux (acc * 10 + digitVal c) cs
    else if c = '_' then
      match cs with
      | [] => none
      | d :: cs' => if d.isDigit then pyIntAux (acc * 10 + digitVal d) cs' else none
    else none

/-- Parse an unsigned decimal literal as Python `int()` does (nonempty digit
run, single underscores allowed between digits). -/
def pyIntDigits : List Char → Option Nat
  | [] => none
  | c :: cs => if c.isDigit then pyIntAux (digitVal c) cs else none

/-- Python `int(s)`: optional surrounding whitespace, optional sign, then a
decimal literal; returns `none` where Python raises `ValueError`.
(Non-ASCII digits, accepted by CPython, are out of scope of this model.) -/
def pyInt (s : String) : Option Int :=
  match pyStripList s.data with
  | '+' :: rest => (pyIntDigits rest).map Int.ofNat
  | '-' :: rest => (pyIntDigits rest).map fun n => -(n : Int)
  | rest => (pyIntDigits rest).map Int.ofNat

/- ## Date normalization (build_db.py lines 55-57 and 120-122, build_json.py
lines 29-31): `f"{date_str[0:4]}-{date_str[4:6]}-{date_str[6:8]}"` -/

/-- The scripts' date normalization: fixed positional slicing of the compact
date string, with no length or calendar validation. -/
def formatDate (d : String) : String :=
  pySlice d 0 4 ++ "-" ++ pySlice d 4 6 ++ "-" ++ pySlice d 6 8

/- ## Statewide parse loop (build_db.py lines 50-61, build_json.py lines
23-33; the two loops are textually identical) -/

/-- Body of the statewide loop once a line is split on `','`: rows with a
field count other than 2 are skipped (`.ok none`); in a 2-field row the
level goes through `int()`, whose failure is an uncaught `ValueError`
(`.error`), and the date is normalized positionally. -/
def statewideRowOfParts (parts : List String) : Except String (Option (String × Int)) :=
  if parts.length = 2 then
    match pyInt parts[1]! with
    | none => .error ("ValueError: invalid literal for int() with base 10: " ++ parts[1]!)
    | some w => .ok (some (formatDate parts[0]!, w))
  else .ok none

/-- One iteration of the statewide loop: empty lines are skipped, others
are split on `','` and handled by `statewideRowOfParts`. -/
def statewideStep (line : String) : Except String (Option (String × Int)) :=
  if line = "" then .ok none
  else statewideRowOfParts ((pySplitChar ',' line.data).map fun cs => (⟨cs⟩ : String))

/-- The statewide loop over the line list: accumulates kept rows in input
order; a raised `ValueError` aborts the whole run. -/
def parseStatewideLines : List String → Except String (List (String × Int))
  | [] => .ok []
  | l :: rest => do
    let r ← statewideStep l
    let tail ← parseStatewideLines rest
    match r with
    | none => pure tail
    | some p => pure (p :: tail)

/-- `csv_data.strip().split('\n')`. -/
def statewideLines (csv : String) : List String :=
  (pySplitChar '\n' (pyStripList csv.data)).map fun cs => (⟨cs⟩ : String)

/-- The whole statewide parse: strip, split into lines, run the loop. -/
def parseStatewide (csv : String) : Except String (List (String × Int)) :=
  parseStatewideLines (statewideLines csv)

/- ## Per-reservoir parse loop (build_db.py lines 113-125)

`csv.reader` is an external collaborator; the loop below consumes its
output, a list of string rows. Rows with fewer than 4 fields are skipped;
otherwise `row[0]` is the station id, `row[1]` is ignored, `row[2]` is the
compact date, and `int(row[3])` is the level (uncaught `ValueError` on
failure). -/

/-- One observation row as stored: `(station_id, date, water_level)`. -/
abbrev ResRow := String × String × Int

/-- Body of the per-reservoir loop for one `csv.reader` row. -/
def resRowOfFields (row : List String) : Except String (Option ResRow) :=
  if row.length < 4 then .ok none
  else
    match pyInt row[3]! with
    | none => .error ("ValueError: invalid literal for int() with base 10: " ++ row[3]!)
    | some w => .ok (some (row[0]!, formatDate row[2]!, w))

/-- The per-reservoir loop over all rows, in input order. -/
def parseReservoirRows : List (List String) → Except String (List ResRow)
  | [] => .ok []
  | row :: rest => do
    let r ← resRowOfFields row
    let tail ← parseReservoirRows rest
    match r with
    | none => pure tail
    | some p => pure (p :: tail)

/- ## Reservoir metadata loop (build_db.py lines 79-91) -/

/-- One `csv.DictReader` row of `capacity.csv`, by column name. -/
structure MetaRow where
  id : String
  dam : String
  lake : String
  stream : String
  capacity : String
  yearFill : String
deriving DecidableEq, Repr

/-- One stored `reservoirs` row. -/
structure Reservoir where
  station_id : String
  dam_name : String
  lake_name : String
  stream_name : String
  capacity : Option Int
  year_fill : Option Int
deriving DecidableEq, Repr

/-- Body of the metadata loop:
`capacity = int(row['CAPACITY (AF)']) if row['CAPACITY (AF)'] else None`
(an empty string is falsy, so it maps to `None`; a nonempty string goes
through `int()`, whose failure is an uncaught `ValueError`). -/
def loadMetaRow (r : MetaRow) : Except String Reservoir := do
  let cap ←
    if r.capacity = "" then pure none
    else match pyInt r.capacity with
      | none => Except.error ("ValueError: invalid literal for int() with base 10: " ++ r.capacity)
      | some n => pure (some n)
  let yf ←
    if r.yearFill = "" then pure none
    else match pyInt r.yearFill with
      | none => Except.error ("ValueError: invalid literal for int() with base 10: " ++ r.yearFill)
      | some n => pure (some n)
  pure ⟨r.id, r.dam, r.lake, r.stream, cap, yf⟩

/-- The metadata loop over all rows. -/
def loadMetaRows : List MetaRow → Except String (List Reservoir)
  | [] => .ok []
  | r :: rest => do
    let v ← loadMetaRow r
    let tail ← loadMetaRows rest
    pure (v :: tail)

/- ## SQLite insertion semantics

`statewide_observations` has `date TEXT PRIMARY KEY` and is filled by a
plain `INSERT` (build_db.py line 61): a duplicate date raises
`sqlite3.IntegrityError`. `reservoirs` has `station_id TEXT PRIMARY KEY`
with a plain `INSERT` as well. `reservoir_observations` has
`PRIMARY KEY (station_id, date)` and is filled by `INSERT OR IGNORE`
(lines 127-135): a duplicate key is a silent no-op. -/

/-- Plain `INSERT` of one row into a table with primary key `key`: appends,
or raises `IntegrityError` when the key is already present. -/
def insertStrict (key : α → β) [DecidableEq β] (tbl : List α) (r : α) :
    Except String (List α) :=
  if tbl.any fun q => key q = key r then .error "sqlite3.IntegrityError: UNIQUE constraint failed"
  else .ok (tbl ++ [r])

/-- `cursor.executemany('INSERT ...')`: insert the rows in order, stopping
with `IntegrityError` at the first duplicate key. -/
def executemanyStrict (key : α → β) [DecidableEq β] :
    List α → List α → Except String (List α)
  | tbl, [] => .ok tbl
  | tbl, r :: rest => do
    let tbl' ← insertStrict key tbl r
    executemanyStrict key tbl' rest

/-- `INSERT OR IGNORE` of one row: appends unless the key is already
present, in which case the row is silently dropped. -/
def insertOrIgnore (key : α → β) [DecidableEq β] (tbl : List α) (r : α) : List α :=
  if tbl.any fun q => key q = key r then tbl else tbl ++ [r]

/-- `executemany('INSERT OR IGNORE ...')` over one batch. -/
def executemanyIgnore (key : α → β) [DecidableEq β] (tbl : List α) (batch : List α) : List α :=
  batch.foldl (insertOrIgnore key) tbl

/-- Key of a statewide row: the date (`date TEXT PRIMARY KEY`). -/
def statewideKey (r : String × Int) : String := r.1

/-- Key of a per-reservoir row: `(station_id, date)`. -/
def resKey (r : ResRow) : String × String := (r.1, r.2.1)

/-- Split a list into consecutive chunks of `n` (the loop's batching:
flush every `n` rows, then flush the remainder). -/
def chunksOf (n : Nat) : List α → List (List α)
  | [] => []
  | c :: cs => (c :: cs).take n :: chunksOf n (cs.drop (n - 1))
termination_by l => l.length
decreasing_by
  simp only [List.length_drop, List.length_cons]
  omega

/-- The batched per-reservoir load (build_db.py lines 127-135): batches of
10000 rows, each inserted with `INSERT OR IGNORE`, then a final flush. -/
def loadReservoirBatched (rows : List ResRow) : List ResRow :=
  (chunksOf 10000 rows).foldl (executemanyIgnore resKey) []

/-- The same load without batching: one `INSERT OR IGNORE` at a time. -/
def loadReservoir (rows : List ResRow) : List ResRow :=
  rows.foldl (insertOrIgnore resKey) []

/- ## Archive extraction -/

/-- `extract_tar_lzma` (build_db.py lines 8-25): runs `xz -dc`, checks ONLY
its return code (`exit(1)` on nonzero, modelled as `.error`), pipes the
output through `tar -xO` and returns tar's stdout WITHOUT checking tar's
return code. Arguments stand for the two subprocess results. -/
def extract_tar_lzma (xzRet : Int) (xzOut : String) (tarRet : Int) (tarOut : String) :
    Except String String :=
  if xzRet ≠ 0 then .error "Error extracting; exit(1)"
  else
    let _ := xzOut  -- fed to tar as stdin
    let _ := tarRet  -- never inspected
    .ok tarOut

/-- The module-level extraction of build_json.py (lines 8-19): same two
subprocesses, but NEITHER return code is checked; tar's stdout is used
unconditionally. -/
def extractBuildJson (xzRet : Int) (xzOut : String) (tarRet : Int) (tarOut : String) : String :=
  let _ := xzRet
  let _ := xzOut
  let _ := tarRet
  tarOut

/- ## The whole build_db.py run, as seen through the output file

`db_path` is removed whenever it exists (lines 29-31) BEFORE any
extraction; `sqlite3.connect` then creates a fresh file and the three
`CREATE TABLE` statements are implicitly committed by the Python sqlite3
module before DDL executes. Data inserts are only committed by the final
`conn.commit()`; any uncaught exception or `exit(1)` before it leaves the
new file holding empty tables. -/

/-- The content of the output database file. `committed = true` only after
the final `conn.commit()` of a successful run. -/
structure DbState where
  statewide : List (String × Int)
  reservoirs : List Reservoir
  reservoir_obs : List ResRow
  committed : Bool
deriving DecidableEq, Repr

/-- The file `sqlite3.connect` + `CREATE TABLE` leaves behind when a run
dies before `conn.commit()`: empty tables, nothing committed. -/
def freshEmptyDb : DbState := ⟨[], [], [], false⟩

/-- The whole build_db.py run as a function of its inputs: the pre-existing
output file (if any), the cumulative extraction result (`none` = `xz`
nonzero exit), the metadata rows, and the per-reservoir extraction result.
Returns the final state of the output file and whether the run succeeded. -/
def buildDbRun (pre : Option DbState) (ext1 : Option String) (metaRows : List MetaRow)
    (ext2 : Option (List (List String))) : Option DbState × Bool :=
  -- `if os.path.exists(db_path): os.remove(db_path)`: pre is deleted first,
  -- then connect creates the fresh file.
  let _ := pre
  match ext1 with
  | none => (some freshEmptyDb, false)
  | some csv =>
    match parseStatewide csv with
    | .error _ => (some freshEmptyDb, false)
    | .ok sw =>
      match executemanyStrict statewideKey [] sw with
      | .error _ => (some freshEmptyDb, false)
      | .ok swTbl =>
        match loadMetaRows metaRows with
        | .error _ => (some freshEmptyDb, false)
        | .ok resv =>
          match executemanyStrict Reservoir.station_id [] resv with
          | .error _ => (some freshEmptyDb, false)
          | .ok resvTbl =>
            match ext2 with
            | none => (some freshEmptyDb, false)
            | some rows =>
              match parseReservoirRows rows with
              | .error _ => (some freshEmptyDb, false)
              | .ok obs =>
                (some ⟨swTbl, resvTbl, loadReservoirBatched obs, true⟩, true)

example : parseStatewide "20230615,1234567" = .ok [("2023-06-15", 1234567)] := by rfl
example : parseStatewide "20230,123" = .ok [("2023-0-", 123)] := by rfl
example : (parseStatewide "20230615,abc").isOk = false := by rfl
example : parseStatewide "a,b,c\n20230615,7" = .ok [("2023-06-15", 7)] := by rfl

/- ## The document backend's serialization (build_json.py lines 35-40)

`json.dump({"observations": data}, f, separators=(',', ':'))` with the
default `ensure_ascii=True`: the list of `[date, level]` pairs is written
under the single key `"observations"` with no whitespace; strings are
escaped with the standard JSON short escapes, `\uXXXX` for other control
and non-ASCII characters, and surrogate pairs above U+FFFF; integers are
written in decimal. -/

/-- Lowercase hexadecimal digit, as CPython's json encoder emits. -/
def hexDigitChar (n : Nat) : Char :=
  if n < 10 then Char.ofNat (48 + n) else Char.ofNat (87 + n)

/-- Four-digit hexadecimal rendering of `n < 0x10000`. -/
def hex4 (n : Nat) : List Char :=
  [hexDigitChar (n / 4096 % 16), hexDigitChar (n / 256 % 16),
   hexDigitChar (n / 16 % 16), hexDigitChar (n % 16)]

/-- JSON encoding of one character under `ensure_ascii=True`: short escapes
for `"`, `\` and the common control characters, `\uXXXX` for other
characters outside `0x20`-`0x7e`, and a surrogate pair above U+FFFF. -/
def encodeChar (c : Char) : List Char :=
  if c = '"' then ['\\', '"']
  else if c = '\\' then ['\\', '\\']
  else if c = '\n' then ['\\', 'n']
  else if c = '\x0d' then ['\\', 'r']
  else if c = '\t' then ['\\', 't']
  else if c = '\x08' then ['\\', 'b']
  else if c = '\x0c' then ['\\', 'f']
  else if c.toNat < 0x20 then '\\' :: 'u' :: hex4 c.toNat
  else if c.toNat < 0x7f then [c]
  else if c.toNat < 0x10000 then '\\' :: 'u' :: hex4 c.toNat
  else
    '\\' :: 'u' :: hex4 (0xD800 + (c.toNat - 0x10000) / 0x400) ++
      '\\' :: 'u' :: hex4 (0xDC00 + (c.toNat - 0x10000) % 0x400)

/-- Body of a JSON string: each character encoded in sequence. -/
def encodeStringChars (s : List Char) : List Char := (s.map encodeChar).flatten

/-- A full JSON string literal with its surrounding quotes. -/
def encodeJsonString (s : String) : List Char :=
  '"' :: encodeStringChars s.data ++ ['"']

/-- Decimal digits of `n`, most significant first, by fuel-bounded
division (`fuel ≥ n` suffices); empty for `n = 0`. -/
def natDigitsAux : Nat → Nat → List Char
  | 0, _ => []
  | fuel + 1, n => if n = 0 then [] else natDigitsAux fuel (n / 10) ++ [Char.ofNat (48 + n % 10)]

/-- Decimal rendering of a natural number, as Python writes `int`. -/
def natDigits (n : Nat) : List Char := if n = 0 then ['0'] else natDigitsAux n n

/-- Decimal rendering of an integer, as Python's `json` writes `int`. -/
def intChars : Int → List Char
  | .ofNat m => natDigits m
  | .negSucc m => '-' :: natDigits (m + 1)

/-- One `[date, level]` entry. -/
def encodeEntry (p : String × Int) : List Char :=
  '[' :: encodeJsonString p.1 ++ ',' :: intChars p.2 ++ [']']

/-- The entries joined by `,` (no trailing separator). -/
def encodeEntries : List (String × Int) → List Char
  | [] => []
  | [p] => encodeEntry p
  | p :: q :: rest => encodeEntry p ++ ',' :: encodeEntries (q :: rest)

/-- The whole document written by build_json.py:
`\x7b"observations":[...entries...]\x7d`. -/
def serializeDoc (data : List (String × Int)) : String :=
  ⟨'\x7b' :: encodeJsonString "observations" ++ ':' :: '[' ::
    (encodeEntries data ++ [']', '\x7d'])⟩

example : serializeDoc [("2023-06-15", 1234567)] =
    "\x7b\"observations\":[[\"2023-06-15\",1234567]]\x7d" := by rfl
example : serializeDoc [] = "\x7b\"observations\":[]\x7d" := by rfl

/- ## Deserialization (`json.loads` restricted to the grammar the document
backend emits: one object with the key `"observations"` holding an array
of `[string, integer]` pairs, no whitespace) -/

/-- Value of one hexadecimal digit character (either case). -/
def hexVal (c : Char) : Option Nat :=
  if '0' ≤ c ∧ c ≤ '9' then some (c.toNat - 48)
  else if 'a' ≤ c ∧ c ≤ 'f' then some (c.toNat - 87)
  else if 'A' ≤ c ∧ c ≤ 'F' then some (c.toNat - 55)
  else none

/-- Value of a `\uXXXX` escape's four hexadecimal digits. -/
def hexVal4 (a b c d : Char) : Option Nat := do
  let x ← hexVal a
  let y ← hexVal b
  let z ← hexVal c
  let w ← hexVal d
  pure (x * 4096 + y * 256 + z * 16 + w)

/-- Parse the body of a JSON string up to its closing quote, decoding
escapes and recombining surrogate pairs; returns the decoded characters
and the unconsumed input. Fuel bounds the number of decoded characters. -/
def parseStrAux : Nat → List Char → Option (List Char × List Char)
  | 0, _ => none
  | _ + 1, [] => none
  | fuel + 1, c :: rest =>
    if c = '"' then some ([], rest)
    else if c = '\\' then
      match rest with
      | [] => none
      | e :: rest2 =>
        if e = '"' then (parseStrAux fuel rest2).map fun p => ('"' :: p.1, p.2)
        else if e = '\\' then (parseStrAux fuel rest2).map fun p => ('\\' :: p.1, p.2)
        else if e = '/' then (parseStrAux fuel rest2).map fun p => ('/' :: p.1, p.2)
        else if e = 'n' then (parseStrAux fuel rest2).map fun p => ('\n' :: p.1, p.2)
        else if e = 'r' then (parseStrAux fuel rest2).map fun p => ('\x0d' :: p.1, p.2)
        else if e = 't' then (parseStrAux fuel rest2).map fun p => ('\t' :: p.1, p.2)
        else if e = 'b' then (parseStrAux fuel rest2).map fun p => ('\x08' :: p.1, p.2)
        else if e = 'f' then (parseStrAux fuel rest2).map fun p => ('\x0c' :: p.1, p.2)
        else if e = 'u' then
          match rest2 with
          | a :: b :: c' :: d :: rest3 =>
            match hexVal4 a b c' d with
            | none => none
            | some n =>
              if 0xD800 ≤ n ∧ n < 0xDC00 then
                match rest3 with
                | '\\' :: 'u' :: a2 :: b2 :: c2 :: d2 :: rest4 =>
                  match hexVal4 a2 b2 c2 d2 with
                  | none => none
                  | some m =>
                    if 0xDC00 ≤ m ∧ m < 0xE000 then
                      (parseStrAux fuel rest4).map fun p =>
                        (Char.ofNat (0x10000 + (n - 0xD800) * 0x400 + (m - 0xDC00)) :: p.1, p.2)
                    else none
                | _ => none
              else if 0xDC00 ≤ n ∧ n < 0xE000 then none
              else (parseStrAux fuel rest3).map fun p => (Char.ofNat n :: p.1, p.2)
          | _ => none
        else none
    else (parseStrAux fuel rest).map fun p => (c :: p.1, p.2)

/-- Consume a maximal digit run, accumulating its value onto `acc`. -/
def parseDigitsAux : Nat → List Char → Nat × List Char
  | acc, [] => (acc, [])
  | acc, c :: cs => if c.isDigit then parseDigitsAux (acc * 10 + digitVal c) cs else (acc, c :: cs)

/-- Parse a nonempty decimal digit run. -/
def parseJsonNat : List Char → Option (Nat × List Char)
  | [] => none
  | c :: cs => if c.isDigit then some (parseDigitsAux (digitVal c) cs) else none

/-- Parse a JSON integer (optional minus sign, then digits). -/
def parseJsonInt (l : List Char) : Option (Int × List Char) :=
  match l with
  | '-' :: rest => (parseJsonNat rest).map fun p => (-(p.1 : Int), p.2)
  | _ => (parseJsonNat l).map fun p => ((p.1 : Int), p.2)

/-- Parse one `["string",int]` entry. -/
def parseEntry (fuel : Nat) (l : List Char) : Option ((String × Int) × List Char) :=
  match l with
  | '[' :: '"' :: rest => do
    let (s, rest2) ← parseStrAux fuel rest
    match rest2 with
    | ',' :: rest3 => do
      let (n, rest4) ← parseJsonInt rest3
      match rest4 with
      | ']' :: rest5 => some ((⟨s⟩, n), rest5)
      | _ => none
    | _ => none
  | _ => none

/-- Parse one or more comma-separated entries followed by the closing `]`. -/
def parseEntriesAux : Nat → List Char → Option (List (String × Int) × List Char)
  | 0, _ => none
  | fuel + 1, l => do
    let (p, rest) ← parseEntry (fuel + 1) l
    match rest with
    | ',' :: rest2 => (parseEntriesAux fuel rest2).map fun q => (p :: q.1, q.2)
    | ']' :: rest2 => some ([p], rest2)
    | _ => none

/-- `json.loads` on the document grammar: the single-key object holding the
observations array, with nothing left over. -/
def parseDoc (s : String) : Option (List (String × Int)) :=
  match s.data with
  | '\x7b' :: '"' :: rest => do
    let (k, rest2) ← parseStrAux s.data.length rest
    if k = "observations".data then
      match rest2 with
      | ':' :: '[' :: rest3 =>
        match rest3 with
        | ']' :: rest4 => if rest4 = ['\x7d'] then some [] else none
        | _ => do
          let (entries, rest4) ← parseEntriesAux s.data.length rest3
          if rest4 = ['\x7d'] then some entries else none
      | _ => none
    else none
  | _ => none

example : parseDoc (serializeDoc [("2023-06-15", 1234567), ("a\"b", -7)]) =
    some [("2023-06-15", 1234567), ("a\"b", -7)] := by rfl
example : parseDoc (serializeDoc []) = some [] := by rfl

/- ## Spec-side definitions, for refinement claims -/

/-- The spec's normalization formula, written from its words: the string
`D[0:4] + "-" + D[4:6] + "-" + D[6:8]` (to be compared with the code's
`formatDate`). -/
def specNormalizeDate (D : String) : String :=
  ⟨D.data.take 4⟩ ++ "-" ++ ⟨(D.data.drop 4).take 2⟩ ++ "-" ++ ⟨(D.data.drop 6).take 2⟩

/-- A statewide line the document backend keeps: non-empty, exactly two
comma-separated fields, integer level. -/
def wellFormedLine (l : String) : Prop :=
  l ≠ "" ∧ (pySplitChar ',' l.data).length = 2 ∧
    (pyInt ⟨(pySplitChar ',' l.data)[1]!⟩).isSome = true

instance (l : String) : Decidable (wellFormedLine l) := by
  unfold wellFormedLine; infer_instance

/-- The pair a well-formed statewide line contributes to the document
backend's list. -/
def lineToPair (l : String) : String × Int :=
  (formatDate ⟨(pySplitChar ',' l.data)[0]!⟩, (pyInt ⟨(pySplitChar ',' l.data)[1]!⟩).getD 0)

/- # Theorems settling the claims -/

/-- C2, counterexample: the inner `tar` stage exits with status 1, yet
`extract_tar_lzma` returns its (possibly partial) stdout instead of
failing — the claim that the run fails whenever either decompression
stage exits nonzero is false. -/
theorem c2_counterexample :
    extract_tar_lzma 0 "payload" 1 "partial" = .ok "partial" := by rfl

/-- C2, amended: extraction fails only when the OUTER `xz` stage exits
nonzero; when `xz` succeeds, `tar`'s stdout is returned no matter what
`tar`'s exit status was, and build_json.py's module-level extraction
checks neither stage. -/
theorem c2_amended :
    (∀ (xzRet : Int) (xzOut : String) (tarRet : Int) (tarOut : String), xzRet ≠ 0 →
      extract_tar_lzma xzRet xzOut tarRet tarOut = .error "Error extracting; exit(1)") ∧
    (∀ (xzOut : String) (tarRet : Int) (tarOut : String),
      extract_tar_lzma 0 xzOut tarRet tarOut = .ok tarOut) ∧
    (∀ (xzRet : Int) (xzOut : String) (tarRet : Int) (tarOut : String),
      extractBuildJson xzRet xzOut tarRet tarOut = tarOut) := by
  refine ⟨fun xr xo tr tout h => ?_, fun xo tr tout => rfl, fun xr xo tr tout => rfl⟩
  simp [extract_tar_lzma, h]

/-- C2, witness: the amended theorem applied at the concrete exit status 1
for the outer stage. -/
theorem c2_witness :
    extract_tar_lzma 1 "x" 0 "y" = .error "Error extracting; exit(1)" :=
  c2_amended.1 1 "x" 0 "y" (by decide)

/-- C3, counterexample: with a stale complete artifact present, a run whose
cumulative extraction fails does NOT leave the pre-existing artifact
intact — the stale file is removed at the start and a fresh, incomplete
database file (empty tables, nothing committed) is left behind. -/
theorem c3_counterexample :
    buildDbRun (some ⟨[("2022-01-01", 1)], [], [], true⟩) none [] none =
      (some freshEmptyDb, false) ∧
    freshEmptyDb ≠ (⟨[("2022-01-01", 1)], [], [], true⟩ : DbState) := by
  exact ⟨rfl, by decide⟩

/-- C3, amended: the stale prior artifact is deleted at the start of the
run, before extraction; a run aborted by extraction failure therefore
leaves no trace of the pre-existing artifact but does leave a newly
created database file with empty, uncommitted tables. -/
theorem c3_amended (pre : Option DbState) (metaRows : List MetaRow)
    (ext2 : Option (List (List String))) :
    buildDbRun pre none metaRows ext2 = (some freshEmptyDb, false) := by rfl

/-- C1, counterexample: a statewide row with the correct field count but a
non-integer water-level field does not get dropped with processing
continuing — the uncaught `ValueError` aborts the whole run, so the run
fails instead of loading zero rows. -/
theorem c1_counterexample :
    parseStatewide "20230615,abc" =
      .error "ValueError: invalid literal for int() with base 10: abc" := by rfl

/-- C1, amended: in all three parsing paths a row with a non-integer
water-level (or capacity/year-fill) field in an otherwise well-formed row
raises an uncaught conversion error that aborts the entire run; only rows
with the wrong field count are dropped row-level. -/
theorem c1_amended :
    (∀ d s : String, pyInt s = none →
      ∃ m, statewideRowOfParts [d, s] = .error m) ∧
    (∀ row : List String, 4 ≤ row.length → pyInt row[3]! = none →
      ∃ m, resRowOfFields row = .error m) ∧
    (∀ r : MetaRow, r.capacity ≠ "" → pyInt r.capacity = none →
      ∃ m, loadMetaRow r = .error m) ∧
    (∀ (l : String) (rest : List String) (m : String), statewideStep l = .error m →
      parseStatewideLines (l :: rest) = .error m) := by
  refine ⟨fun d s h => ?_, fun row h4 h => ?_, fun r hne h => ?_, fun l rest m h => ?_⟩
  · simp [statewideRowOfParts, h]
  · simp [resRowOfFields, Nat.not_lt.mpr h4, h]
  · simp [loadMetaRow, hne, h, Bind.bind, Except.bind]
  · simp [parseStatewideLines, h, Bind.bind, Except.bind]

/-- C1, witness: the amended theorem applied at concrete malformed rows. -/
theorem c1_witness :
    (∃ m, statewideRowOfParts ["20230615", "abc"] = .error m) ∧
    (∃ m, resRowOfFields ["ORO", "6", "20230101", "x9"] = .error m) ∧
    (∃ m, loadMetaRow ⟨"ORO", "d", "l", "s", "abc", ""⟩ = .error m) ∧
    parseStatewideLines ["20230615,abc", "20230616,5"] =
      .error "ValueError: invalid literal for int() with base 10: abc" :=
  ⟨c1_amended.1 "20230615" "abc" (by rfl),
   c1_amended.2.1 ["ORO", "6", "20230101", "x9"] (by decide) (by rfl),
   c1_amended.2.2.1 ⟨"ORO", "d", "l", "s", "abc", ""⟩ (by decide) (by rfl),
   c1_amended.2.2.2 "20230615,abc" ["20230616,5"] _ (by rfl)⟩

/-- C5, counterexample: a statewide row whose compact date field has only
5 characters is not dropped as a parse error — the non-conforming date is
positionally sliced and persisted as `"2023-0-"`. -/
theorem c5_counterexample :
    parseStatewide "20230,123" = .ok [("2023-0-", 123)] := by rfl

/-- C5, amended: no length validation is performed on the compact date
field; in both observation paths a row whose level parses is kept with
its date field positionally sliced (slices clamping at the string end),
whatever the date field's length. -/
theorem c5_amended :
    (∀ (d s : String) (w : Int), pyInt s = some w →
      statewideRowOfParts [d, s] = .ok (some (formatDate d, w))) ∧
    (∀ (sid code d s : String) (w : Int), pyInt s = some w →
      resRowOfFields [sid, code, d, s] = .ok (some (sid, formatDate d, w))) := by
  refine ⟨fun d s w h => ?_, fun sid code d s w h => ?_⟩
  · simp [statewideRowOfParts, h]
  · simp [resRowOfFields, h]

/-- C5, witness: the amended theorem applied at 5- and 10-character date
fields, which are sliced and kept rather than dropped. -/
theorem c5_witness :
    statewideRowOfParts ["20230", "123"] = .ok (some ("2023-0-", 123)) ∧
    resRowOfFields ["ORO", "6", "2023010199", "7"] = .ok (some ("ORO", "2023-01-01", 7)) :=
  ⟨c5_amended.1 "20230" "123" 123 (by rfl),
   c5_amended.2 "ORO" "6" "2023010199" "7" 7 (by rfl)⟩

/- ## Duplicate handling of the per-reservoir load (for C4) -/

/-- Folding `INSERT OR IGNORE` over the batches of `chunksOf n` is the same
as folding it row by row: batching does not change insertion semantics. -/
theorem chunksOf_foldl_eq {α β : Type} (key : α → β) [DecidableEq β] {n : Nat} (hn : 0 < n) :
    ∀ (m : Nat) (l : List α), l.length ≤ m → ∀ tbl : List α,
      (chunksOf n l).foldl (executemanyIgnore key) tbl = l.foldl (insertOrIgnore key) tbl := by
  intro m
  induction m with
  | zero =>
    intro l hl tbl
    have : l = [] := List.eq_nil_of_length_eq_zero (Nat.le_zero.mp hl)
    subst this
    simp [chunksOf]
  | succ m ih =>
    intro l hl tbl
    match l with
    | [] => simp [chunksOf]
    | c :: cs =>
      obtain ⟨j, rfl⟩ : ∃ j, n = j + 1 := ⟨n - 1, by omega⟩
      have hlen : (cs.drop j).length ≤ m := by
        simp only [List.length_drop]
        simp only [List.length_cons] at hl
        omega
      have lhs_eq : (chunksOf (j + 1) (c :: cs)).foldl (executemanyIgnore key) tbl
          = (cs.drop j).foldl (insertOrIgnore key)
              (((c :: cs).take (j + 1)).foldl (insertOrIgnore key) tbl) := by
        rw [chunksOf]
        simp only [Nat.add_sub_cancel, List.foldl_cons]
        rw [ih (cs.drop j) hlen]
        rfl
      have rhs_eq : (c :: cs).foldl (insertOrIgnore key) tbl
          = (cs.drop j).foldl (insertOrIgnore key)
              (((c :: cs).take (j + 1)).foldl (insertOrIgnore key) tbl) := by
        conv_lhs => rw [← List.take_append_drop (j + 1) (c :: cs)]
        rw [List.foldl_append, List.drop_succ_cons]
      rw [lhs_eq, rhs_eq]

/-- Inserting rows with `INSERT OR IGNORE` preserves, for each key, the
first row bearing that key: `find?` on the resulting table is `find?` on
the prior table, else on the inserted stream. -/
theorem foldl_insertOrIgnore_find? {α β : Type} (key : α → β) [DecidableEq β] (k : β) :
    ∀ (rows tbl : List α),
      ((rows.foldl (insertOrIgnore key) tbl).find? fun r => decide (key r = k)) =
        ((tbl.find? fun r => decide (key r = k)).or
          (rows.find? fun r => decide (key r = k))) := by
  intro rows
  induction rows with
  | nil => intro tbl; simp
  | cons r rs ih =>
    intro tbl
    rw [List.foldl_cons, ih]
    unfold insertOrIgnore
    by_cases hmem : tbl.any (fun q => decide (key q = key r)) = true
    · rw [if_pos hmem]
      by_cases hpr : key r = k
      · rw [hpr] at hmem
        obtain ⟨q, hq, hpq⟩ := List.any_eq_true.mp hmem
        have : (tbl.find? fun r => decide (key r = k)).isSome := by
          rw [List.find?_isSome]; exact ⟨q, hq, hpq⟩
        obtain ⟨t, ht⟩ := Option.isSome_iff_exists.mp this
        rw [ht]
        rfl
      · rw [List.find?_cons_of_neg _ (by simpa using hpr)]
    · rw [if_neg hmem]
      rw [List.find?_append, Option.or_assoc]
      by_cases hpr : key r = k
      · have h1 : ([r].find? fun r => decide (key r = k)) = some r := by
          simp [List.find?_cons, hpr]
        have h2 : ((r :: rs).find? fun r => decide (key r = k)) = some r :=
          List.find?_cons_of_pos _ (by simpa using hpr)
        rw [h1, h2]
        rfl
      · have h1 : ([r].find? fun r => decide (key r = k)) = none := by
          simp [List.find?_cons, hpr]
        rw [h1, List.find?_cons_of_neg _ (by simpa using hpr)]
        rfl

/-- Inserting rows with `INSERT OR IGNORE` leaves, for each key, at most
one row: exactly the prior table's count if the key was already present,
else one row when the stream carries the key and zero otherwise. -/
theorem foldl_insertOrIgnore_filter {α β : Type} (key : α → β) [DecidableEq β] (k : β) :
    ∀ (rows tbl : List α),
      ((rows.foldl (insertOrIgnore key) tbl).filter fun r => decide (key r = k)).length =
        if tbl.any (fun r => decide (key r = k)) then
          ((tbl.filter fun r => decide (key r = k)).length)
        else if rows.any (fun r => decide (key r = k)) then 1 else 0 := by
  intro rows
  induction rows with
  | nil =>
    intro tbl
    simp only [List.foldl_nil, List.any_nil, if_neg Bool.false_ne_true]
    by_cases h : tbl.any (fun r => decide (key r = k)) = true
    · rw [if_pos h]
    · rw [if_neg h]
      have : tbl.filter (fun r => decide (key r = k)) = [] := by
        rw [List.filter_eq_nil_iff]
        intro a ha hpa
        exact h (List.any_eq_true.mpr ⟨a, ha, hpa⟩)
      rw [this]
      rfl
  | cons r rs ih =>
    intro tbl
    rw [List.foldl_cons, ih]
    unfold insertOrIgnore
    by_cases hmem : tbl.any (fun q => decide (key q = key r)) = true
    · rw [if_pos hmem]
      by_cases htbl : tbl.any (fun r => decide (key r = k)) = true
      · rw [if_pos htbl, if_pos htbl]
      · rw [if_neg htbl, if_neg htbl]
        have hpr : ¬ key r = k := by
          intro hpr
          rw [hpr] at hmem
          exact htbl hmem
        have : (r :: rs).any (fun r => decide (key r = k)) = rs.any (fun r => decide (key r = k)) := by
          simp [List.any_cons, hpr]
        rw [this]
    · rw [if_neg hmem]
      by_cases hpr : key r = k
      · have htbl : ¬ tbl.any (fun r => decide (key r = k)) = true := by
          rw [hpr] at hmem
          exact hmem
        have htbl' : (tbl ++ [r]).any (fun r => decide (key r = k)) = true := by
          simp [List.any_append, hpr]
        rw [if_pos htbl', if_neg htbl]
        have hcons : (r :: rs).any (fun r => decide (key r = k)) = true := by
          simp [List.any_cons, hpr]
        rw [if_pos hcons]
        have hnil : tbl.filter (fun r => decide (key r = k)) = [] := by
          rw [List.filter_eq_nil_iff]
          intro a ha hpa
          exact htbl (List.any_eq_true.mpr ⟨a, ha, hpa⟩)
        rw [List.filter_append, hnil]
        simp [hpr]
      · have hany : (tbl ++ [r]).any (fun r => decide (key r = k)) =
            tbl.any (fun r => decide (key r = k)) := by
          simp [List.any_append, hpr]
        have hfil : ((tbl ++ [r]).filter fun r => decide (key r = k)) =
            (tbl.filter fun r => decide (key r = k)) := by
          rw [List.filter_append]
          simp [hpr]
        rw [hany, hfil]
        have : (r :: rs).any (fun r => decide (key r = k)) = rs.any (fun r => decide (key r = k)) := by
          simp [List.any_cons, hpr]
        rw [this]

/-- C4: for every per-reservoir observation stream, batching is immaterial
to the stored table; the stored table holds at most one row per
`(station_id, date)` key — exactly one for each key present in the stream,
zero otherwise — and the row stored for a key is the FIRST row of the
stream bearing it, so later duplicates are silently ignored and never
overwrite the first value (and insertion is total: it never errors). -/
theorem c4_first_write_wins (rows : List ResRow) (k : String × String) :
    loadReservoirBatched rows = loadReservoir rows ∧
    ((loadReservoirBatched rows).find? fun r => decide (resKey r = k)) =
      (rows.find? fun r => decide (resKey r = k)) ∧
    ((loadReservoirBatched rows).filter fun r => decide (resKey r = k)).length =
      (if rows.any (fun r => decide (resKey r = k)) then 1 else 0) := by
  have hb : loadReservoirBatched rows = loadReservoir rows :=
    chunksOf_foldl_eq resKey (by omega) rows.length rows (Nat.le_refl _) []
  refine ⟨hb, ?_, ?_⟩
  · rw [hb]
    unfold loadReservoir
    rw [foldl_insertOrIgnore_find? resKey k rows []]
    rfl
  · rw [hb]
    unfold loadReservoir
    rw [foldl_insertOrIgnore_filter resKey k rows []]
    rfl

/- ## Plain INSERT semantics of the statewide table (for C7) -/

/-- Plain `INSERT` succeeds on a stream of rows exactly when no key repeats
and none collides with the prior table; all rows are appended in order. -/
theorem executemanyStrict_ok {α β : Type} (key : α → β) [DecidableEq β] :
    ∀ (rows tbl : List α),
      (rows.map key).Nodup →
      (∀ r ∈ rows, ¬ tbl.any (fun q => decide (key q = key r)) = true) →
      executemanyStrict key tbl rows = .ok (tbl ++ rows) := by
  intro rows
  induction rows with
  | nil => intro tbl _ _; simp [executemanyStrict]
  | cons r rs ih =>
    intro tbl hnd hdisj
    have hr : ¬ tbl.any (fun q => decide (key q = key r)) = true :=
      hdisj r (List.mem_cons_self r rs)
    have step : insertStrict key tbl r = .ok (tbl ++ [r]) := by
      simp [insertStrict, hr]
    have hnd' : (rs.map key).Nodup := by
      simp only [List.map_cons, List.nodup_cons] at hnd
      exact hnd.2
    have hhead : key r ∉ rs.map key := by
      simp only [List.map_cons, List.nodup_cons] at hnd
      exact hnd.1
    have hdisj' : ∀ x ∈ rs, ¬ (tbl ++ [r]).any (fun q => decide (key q = key x)) = true := by
      intro x hx hany
      rw [List.any_append] at hany
      rcases Bool.or_eq_true_iff.mp hany with h | h
      · exact hdisj x (List.mem_cons_of_mem r hx) h
      · simp only [List.any_cons, List.any_nil, Bool.or_false, decide_eq_true_eq] at h
        exact hhead (h ▸ List.mem_map_of_mem key hx)
    calc executemanyStrict key tbl (r :: rs)
        = executemanyStrict key (tbl ++ [r]) rs := by
          simp [executemanyStrict, step, Bind.bind, Except.bind]
      _ = .ok ((tbl ++ [r]) ++ rs) := ih (tbl ++ [r]) hnd' hdisj'
      _ = .ok (tbl ++ r :: rs) := by simp

/-- Plain `INSERT` raises `IntegrityError` whenever the stream repeats a
key or collides with the prior table. -/
theorem executemanyStrict_err {α β : Type} (key : α → β) [DecidableEq β] :
    ∀ (rows tbl : List α),
      ((∃ r ∈ rows, tbl.any (fun q => decide (key q = key r)) = true) ∨
        ¬ (rows.map key).Nodup) →
      ∃ m, executemanyStrict key tbl rows = .error m := by
  intro rows
  induction rows with
  | nil =>
    intro tbl h
    rcases h with ⟨r, hr, _⟩ | h
    · exact absurd hr (List.not_mem_nil r)
    · simp at h
  | cons r rs ih =>
    intro tbl h
    by_cases hr : tbl.any (fun q => decide (key q = key r)) = true
    · refine ⟨"sqlite3.IntegrityError: UNIQUE constraint failed", ?_⟩
      simp [executemanyStrict, insertStrict, hr, Bind.bind, Except.bind]
    · have step : insertStrict key tbl r = .ok (tbl ++ [r]) := by
        simp [insertStrict, hr]
      have hrec : ∃ m, executemanyStrict key (tbl ++ [r]) rs = .error m := by
        apply ih (tbl ++ [r])
        rcases h with ⟨x, hx, hany⟩ | hnd
        · rcases List.mem_cons.mp hx with rfl | hx'
          · exact absurd hany hr
          · exact Or.inl ⟨x, hx', by rw [List.any_append, hany]; rfl⟩
        · simp only [List.map_cons, List.nodup_cons, not_and_or] at hnd
          rcases hnd with hmem | hnd'
          · rw [not_not] at hmem
            obtain ⟨x, hx, hkx⟩ := List.mem_map.mp hmem
            refine Or.inl ⟨x, hx, ?_⟩
            rw [List.any_append]
            have : [r].any (fun q => decide (key q = key x)) = true := by
              simp [hkx]
            rw [this, Bool.or_true]
          · exact Or.inr hnd'
      obtain ⟨m, hm⟩ := hrec
      refine ⟨m, ?_⟩
      simp [executemanyStrict, step, Bind.bind, Except.bind, hm]

/-- C7, counterexample: in build_db.py the statewide table is filled with a
plain `INSERT` (no `OR IGNORE`), so a second row for an already-inserted
date raises `sqlite3.IntegrityError` and aborts the run, contradicting
the claimed explicit ignore-on-conflict semantics. -/
theorem c7_counterexample :
    executemanyStrict statewideKey [] [("2023-01-01", 5), ("2023-01-01", 7)] =
      .error "sqlite3.IntegrityError: UNIQUE constraint failed" := by rfl

/-- C7, amended: statewide rows are inserted with plain (non-ignoring)
insertion against the `date` primary key: a stream with pairwise distinct
dates is stored in full, in order, with nothing overwritten, while a later
row for an already-inserted date raises a uniqueness-constraint error and
aborts the run (it neither overwrites nor is silently ignored). -/
theorem c7_amended :
    (∀ rows : List (String × Int), (rows.map statewideKey).Nodup →
      executemanyStrict statewideKey [] rows = .ok rows) ∧
    (∀ rows : List (String × Int), ¬ (rows.map statewideKey).Nodup →
      ∃ m, executemanyStrict statewideKey [] rows = .error m) := by
  constructor
  · intro rows hnd
    have := executemanyStrict_ok statewideKey rows [] hnd (by intro r _; simp)
    simpa using this
  · intro rows hnd
    exact executemanyStrict_err statewideKey rows [] (Or.inr hnd)

/-- C7, witness: the amended theorem applied to a duplicate-free stream and
to a stream repeating one date. -/
theorem c7_witness :
    executemanyStrict statewideKey [] [("2023-01-01", 5), ("2023-01-02", 7)] =
      .ok [("2023-01-01", 5), ("2023-01-02", 7)] ∧
    ∃ m, executemanyStrict statewideKey [] [("2023-01-01", 5), ("2023-01-01", 7)] =
      .error m :=
  ⟨c7_amended.1 [("2023-01-01", 5), ("2023-01-02", 7)] (by decide),
   c7_amended.2 [("2023-01-01", 5), ("2023-01-01", 7)] (by decide)⟩


/-- C9: for every metadata row that loads successfully, an empty capacity
or year-fill field is stored as `none` (absent/null, in particular not
the integer 0), and a non-empty field is stored as its `int()` conversion. -/
theorem c9_optional_fields (r : MetaRow) (out : Reservoir) (h : loadMetaRow r = .ok out) :
    (r.capacity = "" → out.capacity = none) ∧
    (r.yearFill = "" → out.year_fill = none) ∧
    (∀ n : Int, r.capacity ≠ "" → pyInt r.capacity = some n → out.capacity = some n) ∧
    (∀ n : Int, r.yearFill ≠ "" → pyInt r.yearFill = some n → out.year_fill = some n) := by
  unfold loadMetaRow at h
  by_cases hc : r.capacity = "" <;> by_cases hy : r.yearFill = ""
  · simp only [if_pos hc, if_pos hy, Bind.bind, Except.bind, pure, Except.pure,
      Except.ok.injEq] at h
    subst h
    exact ⟨fun _ => rfl, fun _ => rfl,
      fun n hne _ => absurd hc hne, fun n hne _ => absurd hy hne⟩
  · cases hpy : pyInt r.yearFill with
    | none =>
      simp only [if_pos hc, if_neg hy, hpy, Bind.bind, Except.bind, pure, Except.pure] at h
      exact Except.noConfusion h
    | some m =>
      simp only [if_pos hc, if_neg hy, hpy, Bind.bind, Except.bind, pure, Except.pure,
        Except.ok.injEq] at h
      subst h
      refine ⟨fun _ => rfl, fun hy' => absurd hy' hy,
        fun n hne _ => absurd hc hne, fun n _ hpn => ?_⟩
      simpa using hpn
  · cases hpc : pyInt r.capacity with
    | none =>
      simp only [if_neg hc, if_pos hy, hpc, Bind.bind, Except.bind, pure, Except.pure] at h
      exact Except.noConfusion h
    | some m =>
      simp only [if_neg hc, if_pos hy, hpc, Bind.bind, Except.bind, pure, Except.pure,
        Except.ok.injEq] at h
      subst h
      refine ⟨fun hc' => absurd hc' hc, fun _ => rfl,
        fun n _ hpn => ?_, fun n hne _ => absurd hy hne⟩
      simpa using hpn
  · cases hpc : pyInt r.capacity with
    | none =>
      simp only [if_neg hc, if_neg hy, hpc, Bind.bind, Except.bind, pure, Except.pure] at h
      exact Except.noConfusion h
    | some m =>
      cases hpy : pyInt r.yearFill with
      | none =>
        simp only [if_neg hc, if_neg hy, hpc, hpy, Bind.bind, Except.bind, pure,
          Except.pure] at h
        exact Except.noConfusion h
      | some m' =>
        simp only [if_neg hc, if_neg hy, hpc, hpy, Bind.bind, Except.bind, pure, Except.pure,
          Except.ok.injEq] at h
        subst h
        refine ⟨fun hc' => absurd hc' hc, fun hy' => absurd hy' hy,
          fun n _ hpn => ?_, fun n _ hpn => ?_⟩
        · simpa using hpn
        · simpa using hpn

/-- C9, witness: the theorem applied to the spec's scenario row (empty
capacity and year-fill fields), whose stored row has both fields null. -/
theorem c9_witness :
    loadMetaRow ⟨"SHA", "Shasta", "Shasta Lake", "Sacramento", "", ""⟩ =
      .ok ⟨"SHA", "Shasta", "Shasta Lake", "Sacramento", none, none⟩ ∧
    (⟨"SHA", "Shasta", "Shasta Lake", "Sacramento", none, none⟩ : Reservoir).capacity = none ∧
    (⟨"SHA", "Shasta", "Shasta Lake", "Sacramento", none, none⟩ : Reservoir).year_fill = none ∧
    loadMetaRow ⟨"ORO", "Oroville", "Lake Oroville", "Feather", "3537577", "1968"⟩ =
      .ok ⟨"ORO", "Oroville", "Lake Oroville", "Feather", some 3537577, some 1968⟩ ∧
    (⟨"ORO", "Oroville", "Lake Oroville", "Feather", some 3537577, some 1968⟩ :
      Reservoir).capacity = some 3537577 := by
  refine ⟨by rfl, ?_, ?_, by rfl, ?_⟩
  · exact (c9_optional_fields ⟨"SHA", "Shasta", "Shasta Lake", "Sacramento", "", ""⟩
      ⟨"SHA", "Shasta", "Shasta Lake", "Sacramento", none, none⟩ (by rfl)).1 rfl
  · exact (c9_optional_fields ⟨"SHA", "Shasta", "Shasta Lake", "Sacramento", "", ""⟩
      ⟨"SHA", "Shasta", "Shasta Lake", "Sacramento", none, none⟩ (by rfl)).2.1 rfl
  · exact (c9_optional_fields ⟨"ORO", "Oroville", "Lake Oroville", "Feather", "3537577", "1968"⟩
      ⟨"ORO", "Oroville", "Lake Oroville", "Feather", some 3537577, some 1968⟩ (by rfl)).2.2.1
      3537577 (by decide) (by rfl)

/-- Statewide loop over a list of well-formed lines: every line contributes
exactly its own pair, in order. -/
theorem parseStatewideLines_wellFormed (ls : List String)
    (h : ∀ l ∈ ls, wellFormedLine l) :
    parseStatewideLines ls = .ok (ls.map lineToPair) := by
  induction ls with
  | nil => rfl
  | cons l rest ih =>
    obtain ⟨hne, hlen, hsome⟩ := h l (List.mem_cons_self l rest)
    obtain ⟨a, b, hab⟩ : ∃ a b, pySplitChar ',' l.data = [a, b] := by
      match hsp : pySplitChar ',' l.data with
      | [] => rw [hsp] at hlen; simp at hlen
      | [x] => rw [hsp] at hlen; simp at hlen
      | [x, y] => exact ⟨x, y, rfl⟩
      | x :: y :: z :: t => rw [hsp] at hlen; simp at hlen
    rw [hab] at hsome
    obtain ⟨w, hw⟩ := Option.isSome_iff_exists.mp hsome
    have hb : ([a, b][1]! : List Char) = b := by rfl
    rw [hb] at hw
    have hstep : statewideStep l = .ok (some (lineToPair l)) := by
      unfold statewideStep statewideRowOfParts lineToPair
      rw [if_neg hne, hab]
      simp [hw]
    have ih' := ih fun x hx => h x (List.mem_cons_of_mem l hx)
    simp [parseStatewideLines, hstep, ih', Bind.bind, Except.bind, pure, Except.pure]

/-- C10: the document backend performs no duplicate-date resolution — when
every line of the (stripped, split) statewide input is well-formed, the
parse succeeds and returns exactly one `[date, level]` pair per line, in
input-line order, so repeated dates each contribute their own pair. -/
theorem c10_no_dedup (csv : String)
    (h : ∀ l ∈ statewideLines csv, wellFormedLine l) :
    parseStatewide csv = .ok ((statewideLines csv).map lineToPair) :=
  parseStatewideLines_wellFormed (statewideLines csv) h

/-- C10, witness: a concrete input whose two well-formed lines repeat the
same date; both pairs appear, in input order, with no dedup. -/
theorem c10_witness :
    parseStatewide "20230101,5\n20230101,7" =
      .ok [("2023-01-01", 5), ("2023-01-01", 7)] := by
  rw [c10_no_dedup "20230101,5\n20230101,7" (by decide)]
  rfl

/-- C6: for every 8-character compact date `D` the code's normalization
produces exactly the spec's formula `D[0:4] + "-" + D[4:6] + "-" + D[6:8]`;
no calendar validation is performed (month "13" passes through), and the
statewide line `"20230615,1234567"` is stored as `("2023-06-15", 1234567)`. -/
theorem c6_normalization (D : String) (_h : D.data.length = 8) :
    formatDate D = specNormalizeDate D ∧
    formatDate "20231315" = "2023-13-15" ∧
    parseStatewide "20230615,1234567" = .ok [("2023-06-15", 1234567)] := by
  refine ⟨?_, by rfl, by rfl⟩
  unfold formatDate specNormalizeDate pySlice
  rfl

/-- C6, witness: the normalization theorem applied at the concrete
8-character compact date `"20230615"`. -/
theorem c6_witness :
    ("20230615" : String).data.length = 8 ∧
    formatDate "20230615" = specNormalizeDate "20230615" :=
  ⟨by decide, (c6_normalization "20230615" (by decide)).1⟩

/- ## Round-trip of the document serialization (for C8) -/

/-- Validity bound carried by every `Char`. -/
theorem char_isValid (c : Char) :
    c.toNat < 0xD800 ∨ (0xDFFF < c.toNat ∧ c.toNat < 0x110000) := c.valid

/-- `Char.ofNat` at a valid code point evaluates back to that code point. -/
theorem toNat_ofNat_of_valid {n : Nat} (h : n.isValidChar) : (Char.ofNat n).toNat = n := by
  unfold Char.ofNat
  rw [dif_pos h]
  rfl

/-- Characters with equal code points are equal. -/
theorem char_eq_of_toNat_eq {a b : Char} (h : a.toNat = b.toNat) : a = b := by
  have ha := Char.ofNat_toNat a
  rw [h, Char.ofNat_toNat b] at ha
  exact ha.symm

/-- A hexadecimal digit decodes back to its value. -/
theorem hexVal_hexDigitChar {n : Nat} (h : n < 16) : hexVal (hexDigitChar n) = some n := by
  interval_cases n <;> decide

/-- Four hexadecimal digits of `n < 0x10000` decode back to `n`. -/
theorem hexVal4_hex4 {n : Nat} (h : n < 65536) :
    hexVal4 (hexDigitChar (n / 4096 % 16)) (hexDigitChar (n / 256 % 16))
      (hexDigitChar (n / 16 % 16)) (hexDigitChar (n % 16)) = some n := by
  rw [hexVal4]
  rw [hexVal_hexDigitChar (Nat.mod_lt _ (by omega)),
      hexVal_hexDigitChar (Nat.mod_lt _ (by omega)),
      hexVal_hexDigitChar (Nat.mod_lt _ (by omega)),
      hexVal_hexDigitChar (Nat.mod_lt _ (by omega))]
  show some (n / 4096 % 16 * 4096 + n / 256 % 16 * 256 + n / 16 % 16 * 16 + n % 16) = some n
  congr 1
  omega

/-- Decoding consumes one encoded character and produces exactly that
character, whatever follows. -/
theorem parseStrAux_encodeChar (c : Char) (tail : List Char) (f : Nat) :
    parseStrAux (f + 1) (encodeChar c ++ tail) =
      (parseStrAux f tail).map fun p => (c :: p.1, p.2) := by
  by_cases h1 : c = '"'
  · subst h1; simp [encodeChar, parseStrAux]
  by_cases h2 : c = '\\'
  · subst h2; simp [encodeChar, parseStrAux]
  by_cases h3 : c = '\n'
  · subst h3; simp [encodeChar, parseStrAux]
  by_cases h4 : c = '\x0d'
  · subst h4; simp [encodeChar, parseStrAux]
  by_cases h5 : c = '\t'
  · subst h5; simp [encodeChar, parseStrAux]
  by_cases h6 : c = '\x08'
  · subst h6; simp [encodeChar, parseStrAux]
  by_cases h7 : c = '\x0c'
  · subst h7; simp [encodeChar, parseStrAux]
  by_cases h8 : c.toNat < 0x20
  · have henc : encodeChar c = '\\' :: 'u' :: hex4 c.toNat := by
      simp [encodeChar, h1, h2, h3, h4, h5, h6, h7, h8]
    have hs1 : ¬(0xD800 ≤ c.toNat ∧ c.toNat < 0xDC00) := by omega
    have hs2 : ¬(0xDC00 ≤ c.toNat ∧ c.toNat < 0xE000) := by omega
    rw [henc]
    simp only [hex4, List.cons_append, List.nil_append]
    rw [parseStrAux]
    simp [hexVal4_hex4 (show c.toNat < 65536 by omega), hs1, hs2, Char.ofNat_toNat]
  by_cases h9 : c.toNat < 0x7f
  · have henc : encodeChar c = [c] := by
      simp [encodeChar, h1, h2, h3, h4, h5, h6, h7, h8, h9]
    rw [henc, List.cons_append, parseStrAux.eq_def]
    simp [h1, h2]
  have hv := char_isValid c
  by_cases h10 : c.toNat < 0x10000
  · have henc : encodeChar c = '\\' :: 'u' :: hex4 c.toNat := by
      simp [encodeChar, h1, h2, h3, h4, h5, h6, h7, h8, h9, h10]
    have hs1 : ¬(0xD800 ≤ c.toNat ∧ c.toNat < 0xDC00) := by omega
    have hs2 : ¬(0xDC00 ≤ c.toNat ∧ c.toNat < 0xE000) := by omega
    rw [henc]
    simp only [hex4, List.cons_append, List.nil_append]
    rw [parseStrAux]
    simp [hexVal4_hex4 (show c.toNat < 65536 by omega), hs1, hs2, Char.ofNat_toNat]
  · have hlt : c.toNat < 0x110000 := by omega
    have henc : encodeChar c =
        '\\' :: 'u' :: hex4 (0xD800 + (c.toNat - 0x10000) / 0x400) ++
          '\\' :: 'u' :: hex4 (0xDC00 + (c.toNat - 0x10000) % 0x400) := by
      simp [encodeChar, h1, h2, h3, h4, h5, h6, h7, h8, h9, h10]
    rw [henc]
    simp only [hex4, List.cons_append, List.nil_append, List.append_assoc]
    rw [parseStrAux]
    have hdivlt : (c.toNat - 0x10000) / 0x400 < 0x400 := by omega
    have hmodlt : (c.toNat - 0x10000) % 0x400 < 0x400 := Nat.mod_lt _ (by omega)
    have hhi : 0xD800 + (c.toNat - 0x10000) / 0x400 < 65536 := by omega
    have hlo : 0xDC00 + (c.toNat - 0x10000) % 0x400 < 65536 := by omega
    have hc1 : 0xD800 ≤ 0xD800 + (c.toNat - 0x10000) / 0x400 ∧
        0xD800 + (c.toNat - 0x10000) / 0x400 < 0xDC00 := by omega
    have hc2 : 0xDC00 ≤ 0xDC00 + (c.toNat - 0x10000) % 0x400 ∧
        0xDC00 + (c.toNat - 0x10000) % 0x400 < 0xE000 := by omega
    have hrecon : 0x10000 + (0xD800 + (c.toNat - 0x10000) / 0x400 - 0xD800) * 0x400 +
        (0xDC00 + (c.toNat - 0x10000) % 0x400 - 0xDC00) = c.toNat := by omega
    have hrecon2 : 0x10000 + (c.toNat - 0x10000) / 0x400 * 0x400 +
        (c.toNat - 0x10000) % 0x400 = c.toNat := by omega
    simp [hexVal4_hex4 hhi, hexVal4_hex4 hlo, hc1, hc2, hrecon, hrecon2, Char.ofNat_toNat]

/-- Decoding an encoded string body up to its closing quote returns exactly
the original characters and the trailing input, for any fuel above the
decoded length. -/
theorem parseStrAux_encode (s : List Char) :
    ∀ (fuel : Nat) (rest : List Char), s.length < fuel →
      parseStrAux fuel (encodeStringChars s ++ '"' :: rest) = some (s, rest) := by
  induction s with
  | nil =>
    intro fuel rest hf
    obtain ⟨f, rfl⟩ : ∃ f, fuel = f + 1 := ⟨fuel - 1, by omega⟩
    simp [encodeStringChars, parseStrAux]
  | cons c t ih =>
    intro fuel rest hf
    obtain ⟨f, rfl⟩ : ∃ f, fuel = f + 1 := ⟨fuel - 1, by omega⟩
    have henc : encodeStringChars (c :: t) = encodeChar c ++ encodeStringChars t := by
      simp [encodeStringChars]
    rw [henc, List.append_assoc, parseStrAux_encodeChar]
    rw [ih f rest (by simpa using hf)]
    rfl

/-- A list whose head (if any) is not a decimal digit. -/
def noLeadingDigit : List Char → Prop
  | [] => True
  | c :: _ => c.isDigit = false

/-- Consuming a maximal digit run over an all-digit prefix folds the
prefix's digits onto the accumulator and stops at the first non-digit. -/
theorem parseDigitsAux_append :
    ∀ (L : List Char) (acc : Nat) (rest : List Char),
      (∀ c ∈ L, c.isDigit = true) → noLeadingDigit rest →
      parseDigitsAux acc (L ++ rest) =
        (L.foldl (fun a c => a * 10 + digitVal c) acc, rest) := by
  intro L
  induction L with
  | nil =>
    intro acc rest _ hrest
    cases rest with
    | nil => rfl
    | cons d ds =>
      have hd : d.isDigit = false := hrest
      simp [parseDigitsAux, hd]
  | cons c L' ih =>
    intro acc rest hL hrest
    have hc : c.isDigit = true := hL c (List.mem_cons_self c L')
    rw [List.cons_append, parseDigitsAux, if_pos hc, List.foldl_cons]
    exact ih _ rest (fun x hx => hL x (List.mem_cons_of_mem c hx)) hrest

/-- The digit characters produced by `natDigitsAux` are decimal digits. -/
theorem natDigitsAux_all_digits :
    ∀ (fuel n : Nat), ∀ c ∈ natDigitsAux fuel n, c.isDigit = true := by
  intro fuel
  induction fuel with
  | zero => intro n c hc; simp [natDigitsAux] at hc
  | succ f ih =>
    intro n c hc
    rw [natDigitsAux] at hc
    by_cases hn : n = 0
    · rw [if_pos hn] at hc; simp at hc
    · rw [if_neg hn] at hc
      rcases List.mem_append.mp hc with h | h
      · exact ih _ c h
      · simp only [List.mem_singleton] at h
        subst h
        have hlt : n % 10 < 10 := Nat.mod_lt _ (by omega)
        set d := n % 10 with hd
        interval_cases d <;> decide

/-- Folding the digit step over `natDigitsAux fuel n` (with enough fuel)
recovers `n` on top of the scaled accumulator. -/
theorem natDigitsAux_foldl :
    ∀ (fuel n : Nat), n ≤ fuel → ∀ acc : Nat,
      (natDigitsAux fuel n).foldl (fun a c => a * 10 + digitVal c) acc =
        acc * 10 ^ (natDigitsAux fuel n).length + n := by
  intro fuel
  induction fuel with
  | zero =>
    intro n hn acc
    have : n = 0 := by omega
    subst this
    simp [natDigitsAux]
  | succ f ih =>
    intro n hn acc
    by_cases hn0 : n = 0
    · subst hn0
      simp [natDigitsAux]
    · rw [natDigitsAux, if_neg hn0]
      have hrec : n / 10 ≤ f := by
        have := Nat.div_lt_self (by omega : 0 < n) (by omega : 1 < 10)
        omega
      rw [List.foldl_append, ih (n / 10) hrec acc]
      have hdig : digitVal (Char.ofNat (48 + n % 10)) = n % 10 := by
        have hvalid : (48 + n % 10).isValidChar := by
          left
          have := Nat.mod_lt n (show 0 < 10 by omega)
          omega
        unfold digitVal
        rw [toNat_ofNat_of_valid hvalid]
        omega
      simp only [List.foldl_cons, List.foldl_nil, List.length_append,
        List.length_cons, List.length_nil, hdig]
      calc (acc * 10 ^ (natDigitsAux f (n / 10)).length + n / 10) * 10 + n % 10
          = acc * (10 ^ (natDigitsAux f (n / 10)).length * 10) + (n / 10 * 10 + n % 10) := by
            ring
        _ = acc * 10 ^ ((natDigitsAux f (n / 10)).length + 1) + n := by
            rw [pow_succ]
            congr 1
            omega
        _ = acc * 10 ^ ((natDigitsAux f (n / 10)).length + (0 + 1)) + n := by
            rw [Nat.zero_add]

/-- `natDigits` always produces a nonempty, all-digit rendering whose
digit-fold recovers the number. -/
theorem natDigits_spec (n : Nat) :
    (∃ d ds, natDigits n = d :: ds) ∧
    (∀ c ∈ natDigits n, c.isDigit = true) ∧
    (natDigits n).foldl (fun a c => a * 10 + digitVal c) 0 = n := by
  by_cases hn : n = 0
  · subst hn
    refine ⟨⟨'0', [], rfl⟩, ?_, by decide⟩
    intro c hc
    simp [natDigits] at hc
    subst hc
    decide
  · unfold natDigits
    rw [if_neg hn]
    refine ⟨?_, fun c hc => natDigitsAux_all_digits n n c hc, ?_⟩
    · match hnd : natDigitsAux n n with
      | [] =>
        have hfold := natDigitsAux_foldl n n (Nat.le_refl n) 0
        rw [hnd] at hfold
        simp only [List.foldl_nil, List.length_nil, pow_zero, Nat.mul_one] at hfold
        exact absurd (by omega : n = 0) hn
      | d :: ds => exact ⟨d, ds, rfl⟩
    · have := natDigitsAux_foldl n n (Nat.le_refl n) 0
      simpa using this

/-- Parsing a rendered natural number returns it and the trailing input. -/
theorem parseJsonNat_natDigits (n : Nat) (rest : List Char) (hrest : noLeadingDigit rest) :
    parseJsonNat (natDigits n ++ rest) = some (n, rest) := by
  obtain ⟨⟨d, ds, hds⟩, hdig, hval⟩ := natDigits_spec n
  rw [hds]
  rw [hds] at hdig hval
  have hd : d.isDigit = true := hdig d (List.mem_cons_self d ds)
  rw [List.cons_append, parseJsonNat, if_pos hd]
  rw [parseDigitsAux_append ds (digitVal d) rest
    (fun c hc => hdig c (List.mem_cons_of_mem d hc)) hrest]
  rw [List.foldl_cons] at hval
  simp only [Nat.zero_mul, Nat.zero_add] at hval
  rw [hval]

/-- Parsing a rendered integer returns it and the trailing input. -/
theorem parseJsonInt_intChars (z : Int) (rest : List Char) (hrest : noLeadingDigit rest) :
    parseJsonInt (intChars z ++ rest) = some (z, rest) := by
  cases z with
  | ofNat m =>
    obtain ⟨⟨d, ds, hds⟩, hdig, _⟩ := natDigits_spec m
    have hd : d.isDigit = true := by
      rw [hds] at hdig
      exact hdig d (List.mem_cons_self d ds)
    have hdm : ¬ d = '-' := by
      intro h
      subst h
      exact absurd hd (by decide)
    show parseJsonInt (natDigits m ++ rest) = some ((m : Int), rest)
    rw [hds, List.cons_append, parseJsonInt.eq_def]
    split
    · next rest' heq =>
      injection heq with hhead _
      exact absurd hhead hdm
    · rw [← List.cons_append, ← hds, parseJsonNat_natDigits m rest hrest]
      rfl
  | negSucc m =>
    show parseJsonInt ('-' :: (natDigits (m + 1) ++ rest)) = some (Int.negSucc m, rest)
    rw [parseJsonInt]
    rw [parseJsonNat_natDigits (m + 1) rest hrest]
    simp [Int.negSucc_eq]

/-- Parsing one serialized `["string",int]` entry returns it exactly. -/
theorem parseEntry_encode (p : String × Int) (rest : List Char) (fuel : Nat)
    (hf : p.1.data.length < fuel) :
    parseEntry fuel (encodeEntry p ++ rest) = some (p, rest) := by
  obtain ⟨s, z⟩ := p
  have hld : noLeadingDigit (']' :: rest) := rfl
  have hstr := parseStrAux_encode s.data fuel
    (',' :: (intChars z ++ ']' :: rest)) (by simpa using hf)
  have hint := parseJsonInt_intChars z (']' :: rest) hld
  unfold encodeEntry encodeJsonString
  simp only [List.cons_append, List.append_assoc, List.nil_append]
  rw [parseEntry]
  rw [hstr]
  simp [hint]

/-- The fuel a serialized entry list needs: its strings' lengths plus two
per entry. -/
def entriesMeasure (data : List (String × Int)) : Nat :=
  (data.map fun p => p.1.data.length + 2).sum

set_option maxHeartbeats 1000000 in
/-- Parsing the serialized entries of a nonempty list, followed by the
closing bracket, returns the list. -/
theorem parseEntriesAux_encode :
    ∀ (data : List (String × Int)) (q : String × Int) (fuel : Nat) (rest : List Char),
      entriesMeasure (q :: data) ≤ fuel →
      parseEntriesAux fuel (encodeEntries (q :: data) ++ ']' :: rest) =
        some (q :: data, rest) := by
  intro data
  induction data with
  | nil =>
    intro q fuel rest hm
    have hq : q.1.data.length + 2 ≤ fuel := by
      simpa [entriesMeasure] using hm
    obtain ⟨f, rfl⟩ : ∃ f, fuel = f + 1 := ⟨fuel - 1, by omega⟩
    rw [parseEntriesAux]
    rw [show encodeEntries [q] = encodeEntry q from rfl]
    rw [parseEntry_encode q (']' :: rest) (f + 1) (by omega)]
    rfl
  | cons q' t ih =>
    intro q fuel rest hm
    have hq : q.1.data.length + 2 + entriesMeasure (q' :: t) ≤ fuel := by
      simpa [entriesMeasure] using hm
    obtain ⟨f, rfl⟩ : ∃ f, fuel = f + 1 := ⟨fuel - 1, by omega⟩
    rw [parseEntriesAux]
    rw [show encodeEntries (q :: q' :: t) = encodeEntry q ++ ',' :: encodeEntries (q' :: t)
      from rfl]
    rw [List.append_assoc, List.cons_append]
    rw [parseEntry_encode q (',' :: (encodeEntries (q' :: t) ++ ']' :: rest)) (f + 1)
      (by omega)]
    have hrec := ih q' f rest (by simp [entriesMeasure] at hq ⊢; omega)
    simp [hrec]

set_option maxHeartbeats 1000000 in
/-- Every character encodes to at least one output character. -/
theorem encodeChar_length_pos (c : Char) : 1 ≤ (encodeChar c).length := by
  unfold encodeChar
  split_ifs <;> simp [hex4]

/-- Encoding a string body never shrinks it. -/
theorem encodeStringChars_length_ge (s : List Char) :
    s.length ≤ (encodeStringChars s).length := by
  induction s with
  | nil => simp [encodeStringChars]
  | cons c t ih =>
    have hc := encodeChar_length_pos c
    have : encodeStringChars (c :: t) = encodeChar c ++ encodeStringChars t := by
      simp [encodeStringChars]
    rw [this, List.length_append, List.length_cons]
    omega

/-- A serialized entry is at least as long as its measure. -/
theorem encodeEntry_length_ge (p : String × Int) :
    p.1.data.length + 2 ≤ (encodeEntry p).length := by
  obtain ⟨s, z⟩ := p
  have hs := encodeStringChars_length_ge s.data
  simp only [encodeEntry, encodeJsonString, List.length_cons, List.length_append,
    List.length_singleton]
  omega

/-- The serialized entries are at least as long as the measure. -/
theorem entriesMeasure_le (data : List (String × Int)) :
    entriesMeasure data ≤ (encodeEntries data).length := by
  induction data with
  | nil => simp [entriesMeasure, encodeEntries]
  | cons p t ih =>
    cases t with
    | nil =>
      have := encodeEntry_length_ge p
      simp only [entriesMeasure, List.map_cons, List.map_nil, List.sum_cons, List.sum_nil]
      rw [show encodeEntries [p] = encodeEntry p from rfl]
      omega
    | cons q t' =>
      have h1 := encodeEntry_length_ge p
      have h2 : entriesMeasure (q :: t') ≤ (encodeEntries (q :: t')).length := ih
      rw [show encodeEntries (p :: q :: t') = encodeEntry p ++ ',' :: encodeEntries (q :: t')
        from rfl]
      simp only [entriesMeasure, List.map_cons, List.sum_cons, List.length_append,
        List.length_cons] at h2 ⊢
      omega

/-- Deserializing the document produced by the document backend returns
exactly the in-memory data. -/
theorem parseDoc_serializeDoc (data : List (String × Int)) :
    parseDoc (serializeDoc data) = some data := by
  cases data with
  | nil => rfl
  | cons p t =>
    have hklen : ("observations".data).length = 12 := rfl
    have hdata : (serializeDoc (p :: t)).data =
        '\x7b' :: '"' :: (encodeStringChars ("observations".data) ++
          ('"' :: (':' :: ('[' :: (encodeEntries (p :: t) ++ (']' :: ['\x7d'])))))) := by
      simp [serializeDoc, encodeJsonString, List.cons_append, List.append_assoc]
    have hkeylen : (encodeStringChars ("observations".data)).length = 12 := rfl
    have hfuellen : ("observations".data).length < (serializeDoc (p :: t)).data.length := by
      rw [hdata, hklen]
      simp only [List.length_cons, List.length_append, hkeylen]
      omega
    have hstr := parseStrAux_encode ("observations".data)
      ((serializeDoc (p :: t)).data.length)
      (':' :: ('[' :: (encodeEntries (p :: t) ++ (']' :: ['\x7d'])))) hfuellen
    have hmeasure : entriesMeasure (p :: t) ≤ (serializeDoc (p :: t)).data.length := by
      have h1 := entriesMeasure_le (p :: t)
      rw [hdata]
      simp only [List.length_cons, List.length_append, hkeylen]
      omega
    have hentries := parseEntriesAux_encode t p
      ((serializeDoc (p :: t)).data.length) ['\x7d'] hmeasure
    obtain ⟨X, hX⟩ : ∃ X, encodeEntries (p :: t) = '[' :: X := by
      cases t <;> exact ⟨_, rfl⟩
    rw [parseDoc.eq_def]
    set fuel := (serializeDoc (p :: t)).data.length with hfuel
    conv_lhs => rw [hdata]
    simp only [hstr, Option.bind_eq_bind, Option.some_bind]
    rw [if_pos trivial, hX, List.cons_append]
    show ((parseEntriesAux fuel ('[' :: (X ++ [']', '\x7d']))).bind fun d =>
      if d.2 = ['\x7d'] then some d.1 else none) = some (p :: t)
    rw [← List.cons_append, ← hX, hentries]
    simp

/-- C8: for every document-backend output, deserializing the produced JSON
document returns the original data, and re-serializing it with the same
formatting rules (single top-level key, compact separators) reproduces the
document byte-for-byte. -/
theorem c8_roundtrip (data : List (String × Int)) :
    parseDoc (serializeDoc data) = some data ∧
    (parseDoc (serializeDoc data)).map serializeDoc = some (serializeDoc data) := by
  have h := parseDoc_serializeDoc data
  exact ⟨h, by rw [h]; rfl⟩
